import Mathlib

/-!
Verification development for the streaming CSV statistics engine of the
efficient-data-pipeline repository.

The repository analyses a delimited text file in chunks: it sniffs the
separator from the first line (`data_pipeline.py`, `example_analysis.py`,
`quick_demo.py`), counts empty cells per column, and folds each chunk into
per-column numeric or categorical accumulators
(`data_pipeline.py : calculate_descriptive_statistics`,
`example_analysis.py : calculate_basic_statistics`).

Modelling conventions, fixed throughout:
* Text lines are modelled as `List Char`; `splitOnChar` is Python's
  `str.split` for a one-character separator.
* Python float arithmetic is modelled exactly over `ℚ`.
* A parsed pandas cell is `Option Val`: `none` is NaN (an empty field),
  `Val.vnum q` a cell whose text parses as a number, `Val.vstr s` any other
  cell.  In an object-typed chunk a numeric-looking cell is still the raw
  text; keying the frequency map by `Val` keeps that distinction.
* A raw csv-module cell (`example_analysis.py`) is `RawCell`: `num q` when
  Python `float(value)` succeeds, `blank` when `value.strip()` is empty
  (then `float` always fails), `strv s` otherwise.
* Python `dict`s are insertion-ordered association lists `FreqMap α`;
  Python `dict` equality is equality of the induced mapping `FreqMap.denote`.
-/

/-- An insertion-ordered finite map from keys to counts, as built by the
Python dict updates in `calculate_descriptive_statistics` and by
`collections.Counter`. -/
abbrev FreqMap (α : Type) : Type := List (α × ℕ)

/-- `dict[v] += c` when `v` is already a key, `dict[v] = c` otherwise
(`data_pipeline.py` lines 252-256): the first entry with key `v` is bumped,
a missing key is appended at the end, as in an insertion-ordered dict. -/
def addEntry [DecidableEq α] : FreqMap α → α → ℕ → FreqMap α
  | [], v, c => [(v, c)]
  | (k, n) :: rest, v, c =>
    if k = v then (k, n + c) :: rest else (k, n) :: addEntry rest v c

/-- Merging accumulator `b` into accumulator `a`: every entry of `b` is
added key-wise into `a`, exactly the loop of `data_pipeline.py` lines
252-256 applied to the entries of `b`. -/
def catMerge [DecidableEq α] (a b : FreqMap α) : FreqMap α :=
  b.foldl (fun m p => addEntry m p.1 p.2) a

/-- The mapping denoted by a frequency dict: the count stored at the first
entry for `k`, and `0` when `k` is not a key.  Python `dict` equality on
maps whose counts are positive is equality of this function. -/
def FreqMap.denote [DecidableEq α] : FreqMap α → α → ℕ
  | [], _ => 0
  | (k, n) :: rest, x => if k = x then n else FreqMap.denote rest x

/-- Sum of the counts of all entries with key `k` (duplicates included). -/
def sumEntries [DecidableEq α] : FreqMap α → α → ℕ
  | [], _ => 0
  | (k, n) :: rest, x => (if k = x then n else 0) + sumEntries rest x

/-- Sum of all stored counts, Python's `sum(dict.values())`. -/
def freqTotal (m : FreqMap α) : ℕ := (m.map Prod.snd).sum

/-- Well-formedness of a map actually representable as a Python dict of
occurrence counts: keys are distinct and every stored count is positive. -/
def FreqMapWF (m : FreqMap α) : Prop :=
  (m.map Prod.fst).Nodup ∧ ∀ p ∈ m, 0 < p.2

instance [DecidableEq α] (m : FreqMap α) : Decidable (FreqMapWF m) := by
  unfold FreqMapWF; infer_instance

/-- Python `line.split(sep)` for a one-character separator `sep`: fields
between occurrences of `sep`, keeping empty fields; the empty line yields
one empty field. -/
def splitOnChar (sep : Char) : List Char → List (List Char)
  | [] => [[]]
  | c :: cs =>
    match splitOnChar sep cs with
    | [] => [[]]
    | f :: rest => if c = sep then [] :: f :: rest else (c :: f) :: rest

/-- The candidate separators `[',', ';', '\t', '|']` tried in priority
order by `detect_file_properties` (`data_pipeline.py` line 72),
`detect_encoding_and_separator` (`example_analysis.py` line 43) and
`_detect_properties` (`quick_demo.py` line 77). -/
def sepCandidates : List Char :=
  [Char.ofNat 44, Char.ofNat 59, Char.ofNat 9, Char.ofNat 124]

/-- Separator detection (`data_pipeline.py` lines 72-82): starting from
`best_separator = ','` and `max_columns = 0`, each candidate is tried in
order and replaces the current best only when it yields strictly more
fields. -/
def detectSep (line : List Char) : Char × ℕ :=
  sepCandidates.foldl
    (fun acc sep =>
      let cols := splitOnChar sep line
      if acc.2 < cols.length then (sep, cols.length) else acc)
    (Char.ofNat 44, 0)

/-- The candidate encodings tried in order by
`detect_encoding_and_separator` (`example_analysis.py` line 30). -/
def encodingCandidates : List String := ["utf-8", "latin-1", "cp1252"]

/-- Encoding selection (`example_analysis.py` lines 30-40): the first
candidate that decodes the sample and for which the stripped first line is
nonempty; when the loop sets nothing, the initial `'utf-8'` remains.
`decodeOk e` abstracts "opening the file with encoding `e` raises no
`UnicodeDecodeError`"; `firstLine` is the stripped first line. -/
def detectEncoding (decodeOk : String → Bool) (firstLine : List Char) : String :=
  match encodingCandidates.find? (fun e => decodeOk e && !firstLine.isEmpty) with
  | some e => e
  | none => "utf-8"

/-- The file profile returned by `detect_encoding_and_separator`. -/
structure DetectResult where
  encoding : String
  separator : Char
  columns : ℕ
deriving DecidableEq

/-- `detect_encoding_and_separator` (`example_analysis.py` lines 25-62):
pick an encoding, then run separator detection on the stripped first line.
The function is total — the source has no failure path, every input
produces a profile. -/
def detect_encoding_and_separator (decodeOk : String → Bool)
    (firstLine : List Char) : DetectResult :=
  { encoding := detectEncoding decodeOk firstLine
    separator := (detectSep firstLine).1
    columns := (detectSep firstLine).2 }

/-- A parsed pandas cell value: a number or a non-numeric string. -/
inductive Val : Type where
  | vnum : ℚ → Val
  | vstr : String → Val
deriving DecidableEq

/-- Whether the cell text parses as a number. -/
def Val.isNum : Val → Bool
  | .vnum _ => true
  | .vstr _ => false

/-- A pandas cell: `none` is NaN (empty field). -/
abbrev Cell := Option Val

/-- The non-null values of a column chunk (`chunk[col].dropna()`). -/
def nonNull (ch : List Cell) : List Val := ch.filterMap id

/-- The numeric value of a parsed cell value, when it has one. -/
def Val.numQ : Val → Option ℚ
  | .vnum q => some q
  | .vstr _ => none

/-- The numeric values of a column chunk, in order. -/
def chunkNums (ch : List Cell) : List ℚ := (nonNull ch).filterMap Val.numQ

/-- Pandas dtype inference for one column chunk: the chunk is numeric
(`select_dtypes(include=[np.number])`) exactly when every non-null cell
parses as a number; otherwise the column chunk has object dtype. An
all-NaN chunk is float64, hence numeric. -/
def chunkIsNumeric (ch : List Cell) : Bool := (nonNull ch).all Val.isNum

/-- `min(acc, chunk_min)` on floats where `acc` may be the initial `inf`
(`none`) and the chunk minimum may be NaN (`none`, from an all-NaN chunk):
Python's `min` keeps `acc` when the second argument is NaN, and any real
chunk minimum replaces the initial `inf`. -/
def optMin (a b : Option ℚ) : Option ℚ :=
  match a, b with
  | none, b => b
  | a, none => a
  | some x, some y => some (min x y)

/-- `max(acc, chunk_max)`, dually to `optMin`. -/
def optMax (a b : Option ℚ) : Option ℚ :=
  match a, b with
  | none, b => b
  | a, none => a
  | some x, some y => some (max x y)

/-- `chunk[col].min()`: the minimum of the chunk's numeric values, NaN
(`none`) when there are none. -/
def minQ : List ℚ → Option ℚ
  | [] => none
  | q :: l =>
    match minQ l with
    | none => some q
    | some m => some (min q m)

/-- `chunk[col].max()`, dually. -/
def maxQ : List ℚ → Option ℚ
  | [] => none
  | q :: l =>
    match maxQ l with
    | none => some q
    | some m => some (max q m)

/-- The running numeric accumulator of `calculate_descriptive_statistics`
(`data_pipeline.py` lines 224-231): `sum`, `count`, `min` (initially
`inf`, modelled `none`), `max` (initially `-inf`, modelled `none`) and the
sample list `values`. -/
structure NumAcc where
  sum : ℚ
  count : ℕ
  minv : Option ℚ
  maxv : Option ℚ
  values : List ℚ
deriving DecidableEq

/-- The initial numeric accumulator (`data_pipeline.py` lines 225-231). -/
def initNum : NumAcc := ⟨0, 0, none, none, []⟩

/-- Folding one numeric-dtype chunk into the accumulator
(`data_pipeline.py` lines 233-241): add the chunk sum, add the non-null
count, combine min and max, and extend the sample list by the whole
chunk's non-null values — but only when the sample list currently holds
fewer than 10000 values. -/
def numUpdate (a : NumAcc) (ch : List Cell) : NumAcc :=
  { sum := a.sum + (chunkNums ch).sum
    count := a.count + (chunkNums ch).length
    minv := optMin a.minv (minQ (chunkNums ch))
    maxv := optMax a.maxv (maxQ (chunkNums ch))
    values := if a.values.length < 10000 then a.values ++ chunkNums ch else a.values }

/-- Folding one object-dtype chunk into the categorical accumulator
(`data_pipeline.py` lines 250-256): `value_counts` over the chunk followed
by key-wise addition adds, as a mapping, one occurrence per non-null cell;
the fold below performs exactly those additions cell by cell. -/
def catUpdate (m : FreqMap Val) (ch : List Cell) : FreqMap Val :=
  (nonNull ch).foldl (fun m v => addEntry m v 1) m

/-- The per-column state of `calculate_descriptive_statistics`: the
numeric accumulator and the categorical frequency dict for one column. -/
structure StatAcc where
  num : NumAcc
  cat : FreqMap Val
deriving DecidableEq

/-- The initial per-column state. -/
def initStat : StatAcc := ⟨initNum, []⟩

/-- Processing one chunk of a column (`data_pipeline.py` lines 220-256):
pandas types the chunk's column, and the chunk is folded into the numeric
accumulator when numeric, into the categorical dict otherwise. -/
def statStep (s : StatAcc) (ch : List Cell) : StatAcc :=
  if chunkIsNumeric ch then { s with num := numUpdate s.num ch }
  else { s with cat := catUpdate s.cat ch }

/-- Fuel-indexed chunking; the fuel only forces termination and any fuel
of at least the list's length computes the same chunks for positive `n`. -/
def chunksOfAux (n : ℕ) : ℕ → List α → List (List α)
  | _, [] => []
  | 0, _ :: _ => []
  | fuel + 1, c :: cs => ((c :: cs).take n) :: chunksOfAux n fuel ((c :: cs).drop n)

/-- `pd.read_csv(..., chunksize=n)`: the list of successive chunks of `n`
rows (the last chunk may be shorter). -/
def chunksOf (n : ℕ) (l : List α) : List (List α) := chunksOfAux n l.length l

/-- The whole chunked statistics pass of `calculate_descriptive_statistics`
for one column: fold every chunk of `n` rows into the per-column state. -/
def colStats (cells : List Cell) (n : ℕ) : StatAcc :=
  (chunksOf n cells).foldl statStep initStat

/-- Number of null cells in a chunk of one column
(`chunk.isnull().sum()` for that column). -/
def countNone (ch : List Cell) : ℕ := ch.countP fun c => c.isNone

/-- The chunked null pass of `analyze_null_values` (`data_pipeline.py`
lines 174-191) for one column: per-chunk null counts accumulated over all
chunks of `n` rows. -/
def colNulls (cells : List Cell) (n : ℕ) : ℕ :=
  (chunksOf n cells).foldl (fun a ch => a + countNone ch) 0

/-- The finalized numeric summary of `calculate_descriptive_statistics`
(`data_pipeline.py` lines 265-274). -/
structure NumSummary where
  mean : ℚ
  minv : ℚ
  maxv : ℚ
  count : ℕ
  null_count : ℤ
deriving DecidableEq

/-- Numeric finalization (`data_pipeline.py` lines 265-274): a summary is
produced only when `count > 0`, with `mean = sum/count` and
`null_count = total_rows - count`; a zero-count column is skipped and no
summary for it appears in the result. -/
def finalizeNum (a : NumAcc) (totalRows : ℕ) : Option NumSummary :=
  if 0 < a.count then
    some { mean := a.sum / a.count
           minv := a.minv.getD 0
           maxv := a.maxv.getD 0
           count := a.count
           null_count := (totalRows : ℤ) - a.count }
  else none

/-- The mean that finalization would surface: defined only for positive
count. -/
def meanOf (a : NumAcc) : Option ℚ :=
  if 0 < a.count then some (a.sum / a.count) else none

/-- Equality of everything the finalized per-column result exposes, for
the same column aggregated with chunk sizes `n` and `m`: null count,
numeric count, sum, min, max and mean, and the categorical frequency map
as a mapping (Python dict equality).  The sample reservoir is excluded,
as the claim specifies. -/
def resultEquiv (cells : List Cell) (n m : ℕ) : Prop :=
  colNulls cells n = colNulls cells m ∧
  (colStats cells n).num.count = (colStats cells m).num.count ∧
  (colStats cells n).num.sum = (colStats cells m).num.sum ∧
  (colStats cells n).num.minv = (colStats cells m).num.minv ∧
  (colStats cells n).num.maxv = (colStats cells m).num.maxv ∧
  meanOf (colStats cells n).num = meanOf (colStats cells m).num ∧
  ∀ k, ((colStats cells n).cat).denote k = ((colStats cells m).cat).denote k

/-- A column all of whose non-null values parse as numbers, or none of
whose non-null values do: the two cases in which pandas gives every chunk
of the column the same kind of dtype regardless of chunk boundaries. -/
def Homogeneous (cells : List Cell) : Prop :=
  (∀ v ∈ nonNull cells, v.isNum = true) ∨ ∀ v ∈ nonNull cells, v.isNum = false

instance (cells : List Cell) : Decidable (Homogeneous cells) := by
  unfold Homogeneous; infer_instance

/-- A raw cell as seen by the csv-module scripts: `num q` when Python
`float(value)` succeeds with value `q`, `blank` when the text strips to
empty (so `float` fails and the cell is skipped), `strv s` for any other
text. -/
inductive RawCell : Type where
  | num : ℚ → RawCell
  | strv : String → RawCell
  | blank : RawCell
deriving DecidableEq

/-- Whether `value.strip()` is empty. -/
def isBlankCell : RawCell → Bool
  | .blank => true
  | _ => false

/-- Whether `float(value)` succeeds. -/
def isNumCell : RawCell → Bool
  | .num _ => true
  | _ => false

/-- Whether the cell is a non-blank non-numeric string. -/
def isStrCell : RawCell → Bool
  | .strv _ => true
  | _ => false

/-- The parsed number of a raw cell, when `float(value)` succeeds. -/
def cellNum : RawCell → Option ℚ
  | .num q => some q
  | _ => none

/-- The key under which a non-blank non-numeric cell is counted. -/
def cellStr : RawCell → Option String
  | .strv s => some s
  | _ => none

/-- The per-column state of `calculate_basic_statistics`
(`example_analysis.py` lines 154-159): the list of numeric values, the
`Counter` of string values, and the total number of cells seen. -/
structure ColStats where
  numeric_values : List ℚ
  string_values : FreqMap String
  total_count : ℕ
deriving DecidableEq

/-- The initial per-column state (`example_analysis.py` lines 154-159). -/
def initColStats : ColStats := ⟨[], [], 0⟩

/-- Processing one cell (`example_analysis.py` lines 163-175): always
increment `total_count`; append to `numeric_values` when `float(value)`
succeeds; otherwise count the value in `string_values` when it is not
blank; a blank cell goes nowhere else. -/
def updateCell (s : ColStats) (c : RawCell) : ColStats :=
  { total_count := s.total_count + 1
    numeric_values :=
      match c with
      | .num q => s.numeric_values ++ [q]
      | _ => s.numeric_values
    string_values :=
      match c with
      | .strv v => addEntry s.string_values v 1
      | _ => s.string_values }

/-- Final column classification (`example_analysis.py` line 184,
`quick_demo.py` line 218): the column is reported numeric exactly when
`numeric_values` is nonempty. -/
def classifyNumeric (s : ColStats) : Bool := !s.numeric_values.isEmpty

/-- The inner cell loop `for i, value in enumerate(row): if i < len(columns)`
(`example_analysis.py` lines 163-164 and 124-125): cell `i` updates the
`i`-th per-column state; cells beyond the header's column count are
ignored, and a short row leaves the remaining columns untouched.  Column
names are unique (spec §6), so keying the Python dict by name is keying by
index. -/
def foldRowInto (upd : β → RawCell → β) : List β → List RawCell → List β
  | [], _ => []
  | acc, [] => acc
  | a :: rest, c :: cs => upd a c :: foldRowInto upd rest cs

/-- `calculate_basic_statistics` (`example_analysis.py` lines 140-176):
one state per header column, every row folded in by the guarded cell
loop. -/
def calculate_basic_statistics (cols : List String)
    (rows : List (List RawCell)) : List ColStats :=
  rows.foldl (foldRowInto updateCell) (cols.map fun _ => initColStats)

/-- `analyze_null_values` (`example_analysis.py` lines 108-138): per
column, the number of cells that strip to empty, with the same guarded
cell loop, plus the row count accumulated by `total_rows += 1`. -/
def analyze_null_values (cols : List String)
    (rows : List (List RawCell)) : List ℕ × ℕ :=
  (rows.foldl (foldRowInto fun n c => if isBlankCell c then n + 1 else n)
      (cols.map fun _ => 0),
    rows.length)

/-! ## Frequency-map lemmas -/

/-- Adding `c` at key `v` changes the denoted mapping pointwise. -/
theorem denote_addEntry [DecidableEq α] (m : FreqMap α) (v : α) (c : ℕ) (x : α) :
    (addEntry m v c).denote x = m.denote x + if v = x then c else 0 := by
  induction m with
  | nil =>
    simp only [addEntry, FreqMap.denote]
    by_cases h : v = x <;> simp [h]
  | cons p rest ih =>
    obtain ⟨k, n⟩ := p
    simp only [addEntry]
    by_cases hkv : k = v
    · subst hkv
      simp only [if_pos rfl, FreqMap.denote]
      by_cases hkx : k = x <;> simp [hkx]
    · simp only [if_neg hkv, FreqMap.denote]
      by_cases hkx : k = x
      · subst hkx
        have hvx : ¬ v = k := fun h => hkv h.symm
        simp [hvx]
      · simp [hkx, ih]

/-- Adding `c` at key `v` adds `c` to the total stored at `v`. -/
theorem sumEntries_addEntry [DecidableEq α] (m : FreqMap α) (v : α) (c : ℕ) (x : α) :
    sumEntries (addEntry m v c) x = sumEntries m x + if v = x then c else 0 := by
  induction m with
  | nil =>
    simp only [addEntry, sumEntries]
    by_cases h : v = x <;> simp [h]
  | cons p rest ih =>
    obtain ⟨k, n⟩ := p
    simp only [addEntry]
    by_cases hkv : k = v
    · subst hkv
      simp only [if_pos rfl, sumEntries]
      by_cases hkx : k = x
      all_goals simp [hkx]
      all_goals omega
    · simp only [if_neg hkv, sumEntries, ih]
      omega

/-- Merging `b` into `a` adds, pointwise, the totals stored in `b`. -/
theorem denote_catMerge [DecidableEq α] (a b : FreqMap α) (x : α) :
    (catMerge a b).denote x = a.denote x + sumEntries b x := by
  induction b generalizing a with
  | nil => simp [catMerge, sumEntries]
  | cons p rest ih =>
    obtain ⟨k, n⟩ := p
    have h : catMerge a ((k, n) :: rest) = catMerge (addEntry a k n) rest := rfl
    rw [h, ih, denote_addEntry]
    simp only [sumEntries]
    omega

/-- Key-wise totals of a merge are the sums of the key-wise totals. -/
theorem sumEntries_catMerge [DecidableEq α] (a b : FreqMap α) (x : α) :
    sumEntries (catMerge a b) x = sumEntries a x + sumEntries b x := by
  induction b generalizing a with
  | nil => simp [catMerge, sumEntries]
  | cons p rest ih =>
    obtain ⟨k, n⟩ := p
    have h : catMerge a ((k, n) :: rest) = catMerge (addEntry a k n) rest := rfl
    rw [h, ih, sumEntries_addEntry]
    simp only [sumEntries]
    omega

/-- A key that does not occur stores a zero total. -/
theorem sumEntries_of_not_mem [DecidableEq α] (m : FreqMap α) (x : α)
    (h : x ∉ m.map Prod.fst) : sumEntries m x = 0 := by
  induction m with
  | nil => rfl
  | cons p rest ih =>
    obtain ⟨k, n⟩ := p
    simp only [List.map_cons, List.mem_cons] at h
    push_neg at h
    simp only [sumEntries]
    have hk : ¬ k = x := fun hkx => h.1 hkx.symm
    simp [hk, ih h.2]

/-- On a dict without duplicate keys the denoted mapping and the key-wise
totals agree. -/
theorem denote_eq_sumEntries [DecidableEq α] (m : FreqMap α)
    (h : (m.map Prod.fst).Nodup) (x : α) : m.denote x = sumEntries m x := by
  induction m with
  | nil => rfl
  | cons p rest ih =>
    obtain ⟨k, n⟩ := p
    simp only [List.map_cons, List.nodup_cons] at h
    simp only [FreqMap.denote, sumEntries]
    by_cases hkx : k = x
    · subst hkx
      rw [sumEntries_of_not_mem rest k h.1]
      simp
    · simp [hkx, ih h.2]

/-- Claim C1: the categorical-accumulator merge is key-wise addition of
counts over the union of keys; it is associative (unconditionally, as a
mapping) and commutative on well-formed dicts, and
`merge {X ↦ 3} {X ↦ 2, Y ↦ 1} = {X ↦ 5, Y ↦ 1}` literally. -/
theorem catMerge_keywise_assoc_comm :
    (∀ a b c : FreqMap String, ∀ x,
        (catMerge (catMerge a b) c).denote x = (catMerge a (catMerge b c)).denote x) ∧
    (∀ a b : FreqMap String, FreqMapWF a → FreqMapWF b → ∀ x,
        (catMerge a b).denote x = (catMerge b a).denote x) ∧
    (∀ a b : FreqMap String, FreqMapWF b → ∀ x,
        (catMerge a b).denote x = a.denote x + b.denote x) ∧
    catMerge [("X", 3)] [("X", 2), ("Y", 1)] = [("X", 5), ("Y", 1)] := by
  refine ⟨?_, ?_, ?_, by decide⟩
  · intro a b c x
    rw [denote_catMerge, denote_catMerge, denote_catMerge, sumEntries_catMerge]
    omega
  · intro a b ha hb x
    rw [denote_catMerge, denote_catMerge, denote_eq_sumEntries a ha.1,
      denote_eq_sumEntries b hb.1]
    omega
  · intro a b hb x
    rw [denote_catMerge, denote_eq_sumEntries b hb.1]

/-- Witness for C1: the commutativity part evaluated on two concrete
well-formed accumulators. -/
theorem catMerge_keywise_assoc_comm_witness :
    FreqMapWF [("A", 1)] ∧ FreqMapWF [("B", 2)] ∧
      (catMerge [("A", 1)] [("B", 2)]).denote "B" =
        (catMerge [("B", 2)] [("A", 1)]).denote "B" :=
  ⟨by decide, by decide,
    catMerge_keywise_assoc_comm.2.1 [("A", 1)] [("B", 2)] (by decide) (by decide) "B"⟩

/-! ## Chunking lemmas -/

/-- Chunking the empty list gives no chunks, for any fuel. -/
theorem chunksOfAux_nil (n fuel : ℕ) : chunksOfAux n fuel ([] : List α) = [] := by
  cases fuel <;> rfl

/-- The fuel is irrelevant once it covers the list length. -/
theorem chunksOfAux_congr (n : ℕ) (hn : 0 < n) :
    ∀ f₁ f₂ (l : List α), l.length ≤ f₁ → l.length ≤ f₂ →
      chunksOfAux n f₁ l = chunksOfAux n f₂ l := by
  intro f₁
  induction f₁ with
  | zero =>
    intro f₂ l h1 _
    have : l = [] := List.length_eq_zero.mp (Nat.le_zero.mp h1)
    subst this
    rw [chunksOfAux_nil, chunksOfAux_nil]
  | succ f₁ ih =>
    intro f₂ l h1 h2
    cases l with
    | nil => rw [chunksOfAux_nil, chunksOfAux_nil]
    | cons c cs =>
      cases f₂ with
      | zero => simp at h2
      | succ f₂ =>
        simp only [chunksOfAux]
        congr 1
        apply ih
        · simp only [List.length_drop, List.length_cons]
          simp only [List.length_cons] at h1
          omega
        · simp only [List.length_drop, List.length_cons]
          simp only [List.length_cons] at h2
          omega

/-- Unfolding equation for `chunksOf` on a nonempty list. -/
theorem chunksOf_cons (n : ℕ) (hn : 0 < n) (l : List α) (hl : l ≠ []) :
    chunksOf n l = l.take n :: chunksOf n (l.drop n) := by
  cases l with
  | nil => exact absurd rfl hl
  | cons c cs =>
    show chunksOfAux n (cs.length + 1) (c :: cs) = _
    simp only [chunksOfAux, chunksOf]
    congr 1
    apply chunksOfAux_congr n hn
    · simp only [List.length_drop, List.length_cons]
      omega
    · exact Nat.le_refl _

/-- Concatenating the chunks recovers the list. -/
theorem flatten_chunksOf (n : ℕ) (hn : 0 < n) (l : List α) :
    (chunksOf n l).flatten = l := by
  suffices h : ∀ k (l : List α), l.length ≤ k → (chunksOf n l).flatten = l from
    h l.length l (Nat.le_refl _)
  intro k
  induction k with
  | zero =>
    intro l h1
    have : l = [] := List.length_eq_zero.mp (Nat.le_zero.mp h1)
    subst this
    rfl
  | succ k ih =>
    intro l h1
    cases l with
    | nil => rfl
    | cons c cs =>
      have hd : ((c :: cs).drop n).length ≤ k := by
        simp only [List.length_drop, List.length_cons]
        simp only [List.length_cons] at h1
        omega
      rw [chunksOf_cons n hn _ (List.cons_ne_nil c cs), List.flatten_cons,
        ih ((c :: cs).drop n) hd, List.take_append_drop]

/-- Every chunk produced by `chunksOf n` holds at most `n` rows. -/
theorem length_le_of_mem_chunksOf (n : ℕ) (hn : 0 < n) (l : List α)
    (ch : List α) (hch : ch ∈ chunksOf n l) : ch.length ≤ n := by
  suffices h : ∀ k (l : List α), l.length ≤ k →
      ∀ ch ∈ chunksOf n l, ch.length ≤ n from h l.length l (Nat.le_refl _) ch hch
  intro k
  induction k with
  | zero =>
    intro l h1 ch hch
    have : l = [] := List.length_eq_zero.mp (Nat.le_zero.mp h1)
    subst this
    simp [chunksOf, chunksOfAux_nil] at hch
  | succ k ih =>
    intro l h1 ch hch
    cases l with
    | nil => simp [chunksOf, chunksOfAux_nil] at hch
    | cons c cs =>
      rw [chunksOf_cons n hn _ (List.cons_ne_nil c cs)] at hch
      rcases List.mem_cons.mp hch with h | h
      · subst h
        simp only [List.length_take]
        omega
      · have hd : ((c :: cs).drop n).length ≤ k := by
          simp only [List.length_drop, List.length_cons]
          simp only [List.length_cons] at h1
          omega
        exact ih ((c :: cs).drop n) hd ch h

/-- Membership in a chunk is membership in the chunked list. -/
theorem mem_of_mem_chunksOf (n : ℕ) (hn : 0 < n) (l : List α)
    (ch : List α) (hch : ch ∈ chunksOf n l) (x : α) (hx : x ∈ ch) : x ∈ l := by
  rw [← flatten_chunksOf n hn l]
  exact List.mem_flatten.mpr ⟨ch, hch, hx⟩

/-! ## Per-column aggregation lemmas -/

/-- A NaN chunk minimum leaves the running minimum unchanged. -/
theorem optMin_none_right (a : Option ℚ) : optMin a none = a := by
  cases a <;> rfl

/-- A NaN chunk maximum leaves the running maximum unchanged. -/
theorem optMax_none_right (a : Option ℚ) : optMax a none = a := by
  cases a <;> rfl

/-- Combining running minima is associative. -/
theorem optMin_assoc (a b c : Option ℚ) :
    optMin (optMin a b) c = optMin a (optMin b c) := by
  cases a <;> cases b <;> cases c <;> simp [optMin, min_assoc]

/-- Combining running maxima is associative. -/
theorem optMax_assoc (a b c : Option ℚ) :
    optMax (optMax a b) c = optMax a (optMax b c) := by
  cases a <;> cases b <;> cases c <;> simp [optMax, max_assoc]

/-- The minimum over a concatenation combines the two minima. -/
theorem minQ_append (l₁ l₂ : List ℚ) :
    minQ (l₁ ++ l₂) = optMin (minQ l₁) (minQ l₂) := by
  induction l₁ with
  | nil => cases h : minQ l₂ <;> simp [minQ, optMin, h]
  | cons q l₁ ih =>
    simp only [List.cons_append, minQ, ih]
    rcases h₁ : minQ l₁ with _ | a <;> rcases h₂ : minQ l₂ with _ | b <;>
      simp [ih, optMin, h₁, h₂, min_assoc]

/-- The maximum over a concatenation combines the two maxima. -/
theorem maxQ_append (l₁ l₂ : List ℚ) :
    maxQ (l₁ ++ l₂) = optMax (maxQ l₁) (maxQ l₂) := by
  induction l₁ with
  | nil => cases h : maxQ l₂ <;> simp [maxQ, optMax, h]
  | cons q l₁ ih =>
    simp only [List.cons_append, maxQ, ih]
    rcases h₁ : maxQ l₁ with _ | a <;> rcases h₂ : maxQ l₂ with _ | b <;>
      simp [ih, optMax, h₁, h₂, max_assoc]

/-- Non-null extraction distributes over concatenation. -/
theorem nonNull_append (l₁ l₂ : List Cell) :
    nonNull (l₁ ++ l₂) = nonNull l₁ ++ nonNull l₂ := by
  simp [nonNull]

/-- Numeric-value extraction distributes over concatenation. -/
theorem chunkNums_append (l₁ l₂ : List Cell) :
    chunkNums (l₁ ++ l₂) = chunkNums l₁ ++ chunkNums l₂ := by
  simp [chunkNums, nonNull]

/-- A chunk without numeric values leaves the numeric accumulator
untouched. -/
theorem numUpdate_of_nums_nil (a : NumAcc) (ch : List Cell)
    (h : chunkNums ch = []) : numUpdate a ch = a := by
  unfold numUpdate
  rw [h]
  cases a with
  | mk s c mn mx vs =>
    simp [optMin_none_right, optMax_none_right, minQ, maxQ]

/-- Counting one occurrence per listed value adds the occurrence counts to
the denoted mapping. -/
theorem denote_foldl_addEntry_one [DecidableEq α] (vs : List α) :
    ∀ (m : FreqMap α) (k : α),
      (vs.foldl (fun m v => addEntry m v 1) m).denote k = m.denote k + vs.count k := by
  induction vs with
  | nil => simp
  | cons v vs ih =>
    intro m k
    simp only [List.foldl_cons, ih, denote_addEntry, List.count_cons]
    by_cases h : v = k
    · simp [h]
      omega
    · have h2 : ¬ (k == v) = true := by
        simp only [beq_iff_eq]
        exact fun hkv => h hkv.symm
      simp [h, h2]

/-- Folding an object-dtype chunk adds one occurrence per non-null cell to
the categorical mapping. -/
theorem denote_catUpdate (m : FreqMap Val) (ch : List Cell) (k : Val) :
    (catUpdate m ch).denote k = m.denote k + (nonNull ch).count k :=
  denote_foldl_addEntry_one (nonNull ch) m k

/-- Folding a list of numeric-dtype chunks: the categorical map is
untouched and sum, count, min and max aggregate the numeric values of the
concatenation of the chunks. -/
theorem foldl_statStep_numeric (chs : List (List Cell)) :
    ∀ s : StatAcc, (∀ ch ∈ chs, chunkIsNumeric ch = true) →
      (chs.foldl statStep s).cat = s.cat ∧
      (chs.foldl statStep s).num.sum = s.num.sum + (chunkNums chs.flatten).sum ∧
      (chs.foldl statStep s).num.count = s.num.count + (chunkNums chs.flatten).length ∧
      (chs.foldl statStep s).num.minv = optMin s.num.minv (minQ (chunkNums chs.flatten)) ∧
      (chs.foldl statStep s).num.maxv = optMax s.num.maxv (maxQ (chunkNums chs.flatten)) := by
  induction chs with
  | nil =>
    intro s _
    simp [chunkNums, nonNull, minQ, maxQ, optMin_none_right, optMax_none_right]
  | cons ch rest ih =>
    intro s h
    have hch : chunkIsNumeric ch = true := h ch (List.mem_cons_self ch rest)
    have hrest : ∀ c ∈ rest, chunkIsNumeric c = true := fun c hc =>
      h c (List.mem_cons_of_mem ch hc)
    have hstep : statStep s ch = { s with num := numUpdate s.num ch } := by
      simp [statStep, hch]
    simp only [List.foldl_cons, hstep]
    obtain ⟨h1, h2, h3, h4, h5⟩ := ih { s with num := numUpdate s.num ch } hrest
    refine ⟨h1, ?_, ?_, ?_, ?_⟩
    · rw [h2, List.flatten_cons, chunkNums_append, List.sum_append]
      simp [numUpdate]
      ring
    · rw [h3, List.flatten_cons, chunkNums_append, List.length_append]
      simp [numUpdate]
      omega
    · rw [h4, List.flatten_cons, chunkNums_append, minQ_append]
      simp [numUpdate, optMin_assoc]
    · rw [h5, List.flatten_cons, chunkNums_append, maxQ_append]
      simp [numUpdate, optMax_assoc]

/-- Folding a list of chunks none of whose non-null values is numeric: the
numeric accumulator is untouched and the categorical mapping gains one
occurrence per non-null cell of the concatenation. -/
theorem foldl_statStep_string (chs : List (List Cell)) :
    ∀ s : StatAcc, (∀ ch ∈ chs, ∀ v ∈ nonNull ch, v.isNum = false) →
      (chs.foldl statStep s).num = s.num ∧
      ∀ k, ((chs.foldl statStep s).cat).denote k =
        s.cat.denote k + (nonNull chs.flatten).count k := by
  induction chs with
  | nil =>
    intro s _
    simp [nonNull]
  | cons ch rest ih =>
    intro s h
    have hch : ∀ v ∈ nonNull ch, v.isNum = false :=
      h ch (List.mem_cons_self ch rest)
    have hrest : ∀ c ∈ rest, ∀ v ∈ nonNull c, v.isNum = false := fun c hc =>
      h c (List.mem_cons_of_mem ch hc)
    by_cases hnum : chunkIsNumeric ch = true
    · have hempty : nonNull ch = [] := by
        rw [List.eq_nil_iff_forall_not_mem]
        intro v hv
        have ht : v.isNum = true := by
          have := List.all_eq_true.mp hnum v hv
          simpa using this
        rw [hch v hv] at ht
        exact Bool.false_ne_true ht
      have hnil : chunkNums ch = [] := by
        rw [chunkNums, hempty]
        rfl
      have hstep : statStep s ch = s := by
        simp [statStep, hnum, numUpdate_of_nums_nil s.num ch hnil]
      simp only [List.foldl_cons, hstep]
      obtain ⟨h1, h2⟩ := ih s hrest
      refine ⟨h1, fun k => ?_⟩
      rw [h2 k, List.flatten_cons, nonNull_append, hempty]
      simp
    · have hstep : statStep s ch = { s with cat := catUpdate s.cat ch } := by
        simp [statStep, hnum]
      simp only [List.foldl_cons, hstep]
      obtain ⟨h1, h2⟩ := ih { s with cat := catUpdate s.cat ch } hrest
      refine ⟨h1, fun k => ?_⟩
      rw [h2 k, List.flatten_cons, nonNull_append, List.count_append]
      simp only [denote_catUpdate]
      omega

/-- The chunked null count is the plain null count of the column, for any
positive chunk size. -/
theorem colNulls_eq (cells : List Cell) (n : ℕ) (hn : 0 < n) :
    colNulls cells n = countNone cells := by
  suffices h : ∀ (chs : List (List Cell)) (a : ℕ),
      chs.foldl (fun a ch => a + countNone ch) a = a + countNone chs.flatten by
    have h2 := h (chunksOf n cells) 0
    rw [flatten_chunksOf n hn cells] at h2
    rw [colNulls, h2]
    omega
  intro chs
  induction chs with
  | nil => intro a; simp [countNone]
  | cons ch rest ih =>
    intro a
    rw [List.foldl_cons, ih (a + countNone ch), List.flatten_cons]
    simp only [countNone, List.countP_append]
    omega

/-- A value is among the non-null values of a column iff its cell is in
the column. -/
theorem mem_nonNull (l : List Cell) (v : Val) : v ∈ nonNull l ↔ some v ∈ l := by
  simp [nonNull, List.mem_filterMap]

/-- Claim C2 counterexample: for the single column holding the cells
`1` and `"x"` (total_rows = 2), the finalized aggregation differs between
`chunk_size = 1` and `chunk_size = total_rows = 2`: with chunks of one row
the first chunk is numeric dtype so the numeric count is 1, while the
single two-row chunk is object dtype so the numeric count is 0 (and the
frequency maps differ likewise).  Both chunk sizes belong to the set
`{1, 7, 10000, total_rows}` named by the claim. -/
theorem descriptive_stats_chunk_dependent :
    ¬ resultEquiv [some (Val.vnum 1), some (Val.vstr "x")] 1 2 := by
  intro h
  have hc := h.2.1
  have h1 : (colStats [some (Val.vnum 1), some (Val.vstr "x")] 1).num.count = 1 := by
    decide
  have h2 : (colStats [some (Val.vnum 1), some (Val.vstr "x")] 2).num.count = 0 := by
    decide
  rw [h1, h2] at hc
  exact one_ne_zero hc

/-- Claim C2 (amended): for every column whose non-null values are either
all numeric or all non-numeric — the case in which pandas gives every
chunk the same kind of dtype — the finalized aggregation (null count,
numeric count, sum, min, max, mean, and the categorical frequency map as
a mapping, excluding only the sample reservoir's contents) is identical
for all positive chunk sizes.  For a mixed column the per-chunk dtype
inference makes the result depend on the chunk size (see the
counterexample). -/
theorem descriptive_stats_chunk_invariant (cells : List Cell) (n m : ℕ)
    (hh : Homogeneous cells) (hn : 0 < n) (hm : 0 < m) :
    resultEquiv cells n m := by
  rcases hh with hnum | hstr
  · have hc : ∀ k, 0 < k → ∀ ch ∈ chunksOf k cells, chunkIsNumeric ch = true := by
      intro k hk ch hch
      rw [chunkIsNumeric, List.all_eq_true]
      intro v hv
      have h1 : some v ∈ ch := (mem_nonNull ch v).mp hv
      have h2 : some v ∈ cells := mem_of_mem_chunksOf k hk cells ch hch _ h1
      exact hnum v ((mem_nonNull cells v).mpr h2)
    obtain ⟨cn1, s1, c1, m1, M1⟩ :=
      foldl_statStep_numeric (chunksOf n cells) initStat (hc n hn)
    obtain ⟨cn2, s2, c2, m2, M2⟩ :=
      foldl_statStep_numeric (chunksOf m cells) initStat (hc m hm)
    rw [flatten_chunksOf n hn cells] at s1 c1 m1 M1
    rw [flatten_chunksOf m hm cells] at s2 c2 m2 M2
    have hcol : ∀ k, colStats cells k = (chunksOf k cells).foldl statStep initStat :=
      fun k => rfl
    refine ⟨by rw [colNulls_eq cells n hn, colNulls_eq cells m hm], ?_, ?_, ?_, ?_, ?_, ?_⟩
    · rw [hcol n, hcol m, c1, c2]
    · rw [hcol n, hcol m, s1, s2]
    · rw [hcol n, hcol m, m1, m2]
    · rw [hcol n, hcol m, M1, M2]
    · rw [meanOf, meanOf, hcol n, hcol m, c1, c2, s1, s2]
    · intro k
      rw [hcol n, hcol m, cn1, cn2]
  · have hc : ∀ k, 0 < k →
        ∀ ch ∈ chunksOf k cells, ∀ v ∈ nonNull ch, v.isNum = false := by
      intro k hk ch hch v hv
      have h1 : some v ∈ ch := (mem_nonNull ch v).mp hv
      have h2 : some v ∈ cells := mem_of_mem_chunksOf k hk cells ch hch _ h1
      exact hstr v ((mem_nonNull cells v).mpr h2)
    obtain ⟨hn1, hc1⟩ := foldl_statStep_string (chunksOf n cells) initStat (hc n hn)
    obtain ⟨hn2, hc2⟩ := foldl_statStep_string (chunksOf m cells) initStat (hc m hm)
    rw [flatten_chunksOf n hn cells] at hc1
    rw [flatten_chunksOf m hm cells] at hc2
    have hcol : ∀ k, colStats cells k = (chunksOf k cells).foldl statStep initStat :=
      fun k => rfl
    refine ⟨by rw [colNulls_eq cells n hn, colNulls_eq cells m hm], ?_, ?_, ?_, ?_, ?_, ?_⟩
    · rw [hcol n, hcol m, hn1, hn2]
    · rw [hcol n, hcol m, hn1, hn2]
    · rw [hcol n, hcol m, hn1, hn2]
    · rw [hcol n, hcol m, hn1, hn2]
    · rw [meanOf, meanOf, hcol n, hcol m, hn1, hn2]
    · intro k
      rw [hcol n, hcol m, hc1 k, hc2 k]

/-- Witness for C2: the amended invariance evaluated on a concrete
homogeneous column with chunk sizes 1 and 2. -/
theorem descriptive_stats_chunk_invariant_witness :
    Homogeneous [some (Val.vnum 2), none] ∧ 0 < 1 ∧ 0 < 2 ∧
      resultEquiv [some (Val.vnum 2), none] 1 2 :=
  ⟨by decide, by decide, by decide,
    descriptive_stats_chunk_invariant [some (Val.vnum 2), none] 1 2
      (by decide) (by decide) (by decide)⟩

/-! ## Sample-reservoir lemmas -/

/-- A replicated numeric cell column has the replicated numeric values. -/
theorem chunkNums_replicate (k : ℕ) (q : ℚ) :
    chunkNums (List.replicate k (some (Val.vnum q))) = List.replicate k q := by
  induction k with
  | zero => rfl
  | succ k ih =>
    simp only [List.replicate_succ]
    simp only [chunkNums, nonNull] at ih ⊢
    simp [List.filterMap_cons, Val.numQ, ih]

/-- A replicated numeric cell column is numeric in pandas dtype
inference. -/
theorem chunkIsNumeric_replicate (k : ℕ) (q : ℚ) :
    chunkIsNumeric (List.replicate k (some (Val.vnum q))) = true := by
  induction k with
  | zero => rfl
  | succ k ih =>
    simp only [List.replicate_succ, chunkIsNumeric, nonNull] at ih ⊢
    simp [List.filterMap_cons, Val.isNum, ih]

/-- A chunk contributes at most its row count of numeric values. -/
theorem chunkNums_length_le (ch : List Cell) : (chunkNums ch).length ≤ ch.length :=
  le_trans (List.length_filterMap_le _ _) (List.length_filterMap_le _ _)

/-- Unfolding a numeric-dtype chunk step. -/
theorem statStep_numeric (s : StatAcc) (ch : List Cell)
    (h : chunkIsNumeric ch = true) :
    statStep s ch = { s with num := numUpdate s.num ch } := by
  simp [statStep, h]

/-- Unfolding an object-dtype chunk step. -/
theorem statStep_object (s : StatAcc) (ch : List Cell)
    (h : chunkIsNumeric ch = false) :
    statStep s ch = { s with cat := catUpdate s.cat ch } := by
  simp [statStep, h]

/-- While the reservoir is strictly below the cap, the whole chunk's
numeric values are appended (`data_pipeline.py` lines 240-241). -/
theorem numUpdate_values_lt (a : NumAcc) (ch : List Cell)
    (h : a.values.length < 10000) :
    (numUpdate a ch).values = a.values ++ chunkNums ch := by
  simp [numUpdate, h]

/-- Once the reservoir has reached the cap, it never grows again. -/
theorem numUpdate_values_ge (a : NumAcc) (ch : List Cell)
    (h : ¬ a.values.length < 10000) :
    (numUpdate a ch).values = a.values := by
  simp [numUpdate, h]

/-- Claim C4 counterexample: a fully numeric column of 10001 values
aggregated with chunk size 9999 drives the sample reservoir to 10001
elements, exceeding the cap of 10000: the gate of `data_pipeline.py`
line 240 tests the length only before extending by the whole chunk, so a
reservoir at 9999 values is still extended by the whole final 2-value
chunk. -/
theorem reservoir_exceeds_cap :
    ¬ ((colStats (List.replicate 10001 (some (Val.vnum 1))) 9999).num.values.length
        ≤ 10000) := by
  have h9 : 0 < 9999 := by omega
  have hne1 : List.replicate 10001 (some (Val.vnum 1)) ≠ [] := by
    simp only [ne_eq, List.replicate_eq_nil_iff]
    omega
  have hne2 : List.replicate 2 (some (Val.vnum 1)) ≠ [] := by
    simp only [ne_eq, List.replicate_eq_nil_iff]
    omega
  have e1 : min 9999 10001 = 9999 := by norm_num
  have e2 : (10001 : ℕ) - 9999 = 2 := by norm_num
  have e3 : min 9999 2 = 2 := by norm_num
  have e4 : (2 : ℕ) - 9999 = 0 := by norm_num
  have hchunks : chunksOf 9999 (List.replicate 10001 (some (Val.vnum 1))) =
      [List.replicate 9999 (some (Val.vnum 1)), List.replicate 2 (some (Val.vnum 1))] := by
    rw [chunksOf_cons 9999 h9 _ hne1, List.take_replicate, List.drop_replicate, e1, e2,
      chunksOf_cons 9999 h9 _ hne2, List.take_replicate, List.drop_replicate, e3, e4,
      List.replicate_zero]
    rfl
  have hcol : colStats (List.replicate 10001 (some (Val.vnum 1))) 9999 =
      (chunksOf 9999 (List.replicate 10001 (some (Val.vnum 1)))).foldl statStep initStat :=
    rfl
  rw [hcol, hchunks]
  simp only [List.foldl_cons, List.foldl_nil]
  rw [statStep_numeric initStat _ (chunkIsNumeric_replicate 9999 1)]
  rw [statStep_numeric _ _ (chunkIsNumeric_replicate 2 1)]
  have hv1 : (numUpdate initStat.num (List.replicate 9999 (some (Val.vnum 1)))).values =
      List.replicate 9999 (1 : ℚ) := by
    rw [numUpdate_values_lt]
    · rw [chunkNums_replicate]
      show ([] : List ℚ) ++ List.replicate 9999 (1 : ℚ) = List.replicate 9999 (1 : ℚ)
      rw [List.nil_append]
    · show (([] : List ℚ)).length < 10000
      simp
  have hv2 : (numUpdate (numUpdate initStat.num (List.replicate 9999 (some (Val.vnum 1))))
      (List.replicate 2 (some (Val.vnum 1)))).values.length = 10001 := by
    rw [numUpdate_values_lt, hv1, chunkNums_replicate]
    · rw [List.length_append, List.length_replicate, List.length_replicate]
    · rw [hv1, List.length_replicate]
      omega
  show ¬ ((numUpdate (numUpdate initStat.num (List.replicate 9999 (some (Val.vnum 1))))
      (List.replicate 2 (some (Val.vnum 1)))).values.length ≤ 10000)
  rw [hv2]
  omega

/-- Claim C4 (amended): a chunk's values are appended only while the
reservoir length before the chunk is strictly below the cap, so across a
whole run with chunk size `n` the reservoir never exceeds
`cap - 1 + n = 9999 + n` elements (the cap can be overshot by at most one
chunk, as the counterexample shows; only for `n = 1` does the stated
`≤ 10000` bound hold). -/
theorem reservoir_bounded (cells : List Cell) (n : ℕ) (hn : 0 < n) :
    (colStats cells n).num.values.length ≤ 9999 + n := by
  suffices h : ∀ chs : List (List Cell), (∀ ch ∈ chs, ch.length ≤ n) →
      ∀ s : StatAcc, s.num.values.length ≤ 9999 + n →
        (chs.foldl statStep s).num.values.length ≤ 9999 + n by
    apply h (chunksOf n cells)
      (fun ch hch => length_le_of_mem_chunksOf n hn cells ch hch) initStat
    simp [initStat, initNum]
  intro chs
  induction chs with
  | nil => intro _ s hs; exact hs
  | cons ch rest ih =>
    intro hlen s hs
    have hch : ch.length ≤ n := hlen ch (List.mem_cons_self ch rest)
    have hrest : ∀ c ∈ rest, c.length ≤ n := fun c hc =>
      hlen c (List.mem_cons_of_mem ch hc)
    rw [List.foldl_cons]
    apply ih hrest
    by_cases hnum : chunkIsNumeric ch = true
    · simp only [statStep, hnum, if_pos]
      by_cases hcap : s.num.values.length < 10000
      · simp only [numUpdate, hcap, if_pos, List.length_append]
        have := chunkNums_length_le ch
        omega
      · simp only [numUpdate, hcap, if_neg, ite_false]
        exact hs
    · simp only [statStep, hnum, if_neg, ite_false]
      exact hs

/-- Witness for C4: the amended bound evaluated on a concrete one-value
column with chunk size 2. -/
theorem reservoir_bounded_witness :
    0 < 2 ∧ (colStats [some (Val.vnum 3)] 2).num.values.length ≤ 9999 + 2 :=
  ⟨by decide, reservoir_bounded [some (Val.vnum 3)] 2 (by decide)⟩

/-! ## Finalization lemmas -/

/-- A combined minimum is absent exactly when both sides are absent. -/
theorem optMin_eq_none (a b : Option ℚ) : optMin a b = none ↔ a = none ∧ b = none := by
  cases a <;> cases b <;> simp [optMin]

/-- A combined maximum is absent exactly when both sides are absent. -/
theorem optMax_eq_none (a b : Option ℚ) : optMax a b = none ↔ a = none ∧ b = none := by
  cases a <;> cases b <;> simp [optMax]

/-- The chunk minimum is NaN exactly for a chunk without numeric values. -/
theorem minQ_eq_none (l : List ℚ) : minQ l = none ↔ l = [] := by
  cases l with
  | nil => simp [minQ]
  | cons q t => cases h : minQ t <;> simp [minQ, h]

/-- The chunk maximum is NaN exactly for a chunk without numeric values. -/
theorem maxQ_eq_none (l : List ℚ) : maxQ l = none ↔ l = [] := by
  cases l with
  | nil => simp [maxQ]
  | cons q t => cases h : maxQ t <;> simp [maxQ, h]

/-- Invariant of every reachable numeric accumulator: a missing running
minimum or maximum can only coexist with a zero count. -/
theorem colStats_num_inv (cells : List Cell) (n : ℕ) :
    ((colStats cells n).num.minv = none → (colStats cells n).num.count = 0) ∧
    ((colStats cells n).num.maxv = none → (colStats cells n).num.count = 0) := by
  suffices h : ∀ (chs : List (List Cell)) (s : StatAcc),
      (s.num.minv = none → s.num.count = 0) →
      (s.num.maxv = none → s.num.count = 0) →
      ((chs.foldl statStep s).num.minv = none → (chs.foldl statStep s).num.count = 0) ∧
      ((chs.foldl statStep s).num.maxv = none → (chs.foldl statStep s).num.count = 0) by
    exact h (chunksOf n cells) initStat (fun _ => rfl) (fun _ => rfl)
  intro chs
  induction chs with
  | nil => intro s h1 h2; exact ⟨h1, h2⟩
  | cons ch rest ih =>
    intro s h1 h2
    rw [List.foldl_cons]
    by_cases hnum : chunkIsNumeric ch = true
    · rw [statStep_numeric s ch hnum]
      apply ih
      · intro hmin
        have hm : optMin s.num.minv (minQ (chunkNums ch)) = none := hmin
        rw [optMin_eq_none] at hm
        have hnil : chunkNums ch = [] := (minQ_eq_none _).mp hm.2
        show s.num.count + (chunkNums ch).length = 0
        rw [hnil, h1 hm.1]
        rfl
      · intro hmax
        have hm : optMax s.num.maxv (maxQ (chunkNums ch)) = none := hmax
        rw [optMax_eq_none] at hm
        have hnil : chunkNums ch = [] := (maxQ_eq_none _).mp hm.2
        show s.num.count + (chunkNums ch).length = 0
        rw [hnil, h2 hm.1]
        rfl
    · rw [statStep_object s ch (by revert hnum; cases chunkIsNumeric ch <;> simp)]
      exact ih { num := s.num, cat := catUpdate s.cat ch } h1 h2

/-- Claim C8 counterexample: for a column of two empty cells (count 0) the
finalization emits nothing at all — `none`, the column is absent from the
numeric summary — rather than a summary carrying an explicit
"undefined"-mean marker. -/
theorem finalize_zero_count_omits_column :
    finalizeNum (colStats [none, none] 1).num 2 = none := by
  decide

/-- Claim C8 (amended): finalizing a numeric column with positive count
yields `mean = sum/count`, the running min and max, the count, and
`null_count = total_rows - count`; when the count is zero the column is
omitted from the numeric summary (no mean is computed, so no division by
zero can occur). -/
theorem finalize_numeric_spec (cells : List Cell) (n total : ℕ) :
    (0 < (colStats cells n).num.count →
      ∃ mn mx, (colStats cells n).num.minv = some mn ∧
        (colStats cells n).num.maxv = some mx ∧
        finalizeNum (colStats cells n).num total =
          some { mean := (colStats cells n).num.sum / (colStats cells n).num.count,
                 minv := mn, maxv := mx,
                 count := (colStats cells n).num.count,
                 null_count := (total : ℤ) - (colStats cells n).num.count }) ∧
    ((colStats cells n).num.count = 0 →
      finalizeNum (colStats cells n).num total = none) := by
  obtain ⟨hmin, hmax⟩ := colStats_num_inv cells n
  constructor
  · intro hpos
    obtain ⟨mn, hmn⟩ : ∃ mn, (colStats cells n).num.minv = some mn := by
      cases h : (colStats cells n).num.minv with
      | none => rw [hmin h] at hpos; exact absurd hpos (by omega)
      | some mn => exact ⟨mn, rfl⟩
    obtain ⟨mx, hmx⟩ : ∃ mx, (colStats cells n).num.maxv = some mx := by
      cases h : (colStats cells n).num.maxv with
      | none => rw [hmax h] at hpos; exact absurd hpos (by omega)
      | some mx => exact ⟨mx, rfl⟩
    refine ⟨mn, mx, hmn, hmx, ?_⟩
    rw [finalizeNum, if_pos hpos, hmn, hmx]
    rfl
  · intro h0
    rw [finalizeNum, if_neg]
    omega

/-- Witness for C8: the positive-count branch evaluated on a concrete
one-value column. -/
theorem finalize_numeric_spec_witness :
    0 < (colStats [some (Val.vnum 2)] 1).num.count ∧
      ∃ mn mx, (colStats [some (Val.vnum 2)] 1).num.minv = some mn ∧
        (colStats [some (Val.vnum 2)] 1).num.maxv = some mx ∧
        finalizeNum (colStats [some (Val.vnum 2)] 1).num 1 =
          some { mean := (colStats [some (Val.vnum 2)] 1).num.sum /
                   (colStats [some (Val.vnum 2)] 1).num.count,
                 minv := mn, maxv := mx,
                 count := (colStats [some (Val.vnum 2)] 1).num.count,
                 null_count := (1 : ℤ) - (colStats [some (Val.vnum 2)] 1).num.count } :=
  ⟨by decide, (finalize_numeric_spec [some (Val.vnum 2)] 1 1).1 (by decide)⟩

/-! ## Row-loop lemmas -/

/-- One guarded cell loop updates the `j`-th column state with the `j`-th
cell when the row has one, and leaves it alone otherwise. -/
theorem foldRowInto_getElem (upd : β → RawCell → β) :
    ∀ (acc : List β) (row : List RawCell) (j : ℕ),
      (foldRowInto upd acc row)[j]? =
        (acc[j]?).map fun a =>
          match row[j]? with
          | some c => upd a c
          | none => a := by
  intro acc
  induction acc with
  | nil =>
    intro row j
    cases row <;> simp [foldRowInto]
  | cons a rest ih =>
    intro row j
    cases row with
    | nil =>
      cases j <;> simp [foldRowInto]
    | cons c cs =>
      cases j with
      | zero => simp [foldRowInto]
      | succ j => simp [foldRowInto, ih cs j]

/-- The guarded cell loop never changes the number of column states. -/
theorem foldRowInto_length (upd : β → RawCell → β) :
    ∀ (acc : List β) (row : List RawCell),
      (foldRowInto upd acc row).length = acc.length := by
  intro acc
  induction acc with
  | nil => intro row; cases row <;> rfl
  | cons a rest ih =>
    intro row
    cases row with
    | nil => rfl
    | cons c cs => simp [foldRowInto, ih cs]

/-- Folding all rows through the guarded cell loop acts on the `j`-th
column state exactly as folding that column's present cells, which are the
cells `r[j]` of the rows of length at least `j + 1`. -/
theorem foldl_foldRowInto_getElem (upd : β → RawCell → β) :
    ∀ (rows : List (List RawCell)) (acc : List β) (j : ℕ),
      (rows.foldl (foldRowInto upd) acc)[j]? =
        (acc[j]?).map fun a => (rows.filterMap fun r => r[j]?).foldl upd a := by
  intro rows
  induction rows with
  | nil =>
    intro acc j
    simp
  | cons row rows ih =>
    intro acc j
    rw [List.foldl_cons, ih (foldRowInto upd acc row) j, foldRowInto_getElem,
      Option.map_map]
    cases h : row[j]? with
    | none =>
      simp only [List.filterMap_cons, h]
      rfl
    | some c =>
      simp only [List.filterMap_cons, h, List.foldl_cons]
      rfl

/-- Folding all rows preserves the number of column states. -/
theorem foldl_foldRowInto_length (upd : β → RawCell → β) :
    ∀ (rows : List (List RawCell)) (acc : List β),
      (rows.foldl (foldRowInto upd) acc).length = acc.length := by
  intro rows
  induction rows with
  | nil => intro acc; rfl
  | cons row rows ih =>
    intro acc
    rw [List.foldl_cons, ih, foldRowInto_length]

/-- The `j`-th per-column statistics state after the whole pass is the
fold of the column's present cells from the fresh state. -/
theorem calc_stats_getElem (cols : List String) (rows : List (List RawCell))
    (j : ℕ) (hj : j < cols.length) :
    (calculate_basic_statistics cols rows)[j]? =
      some ((rows.filterMap fun r => r[j]?).foldl updateCell initColStats) := by
  rw [calculate_basic_statistics, foldl_foldRowInto_getElem, List.getElem?_map,
    List.getElem?_eq_getElem hj]
  rfl

/-- There is no statistics state beyond the header's columns. -/
theorem calc_stats_getElem_none (cols : List String) (rows : List (List RawCell))
    (j : ℕ) (hj : cols.length ≤ j) :
    (calculate_basic_statistics cols rows)[j]? = none := by
  apply List.getElem?_eq_none
  rw [calculate_basic_statistics, foldl_foldRowInto_length, List.length_map]
  exact hj

/-- The `j`-th null count after the whole pass counts the blank cells
among the column's present cells. -/
theorem nulls_getElem (cols : List String) (rows : List (List RawCell))
    (j : ℕ) (hj : j < cols.length) :
    (analyze_null_values cols rows).1[j]? =
      some ((rows.filterMap fun r => r[j]?).countP isBlankCell) := by
  have hfold : ∀ (cells : List RawCell) (a : ℕ),
      cells.foldl (fun n c => if isBlankCell c then n + 1 else n) a =
        a + cells.countP isBlankCell := by
    intro cells
    induction cells with
    | nil => intro a; simp
    | cons c cs ih =>
      intro a
      rw [List.foldl_cons, ih, List.countP_cons]
      by_cases h : isBlankCell c
      all_goals simp [h]
      all_goals omega
  rw [analyze_null_values, foldl_foldRowInto_getElem, List.getElem?_map,
    List.getElem?_eq_getElem hj]
  simp [hfold]

/-- Adding a count to a frequency dict adds it to the stored total. -/
theorem freqTotal_addEntry [DecidableEq α] (m : FreqMap α) (v : α) (c : ℕ) :
    freqTotal (addEntry m v c) = freqTotal m + c := by
  induction m with
  | nil => simp [addEntry, freqTotal]
  | cons p rest ih =>
    obtain ⟨k, n⟩ := p
    simp only [addEntry]
    by_cases h : k = v
    · simp [h, freqTotal]
      omega
    · simp only [if_neg h, freqTotal, List.map_cons, List.sum_cons] at ih ⊢
      omega

/-- Folding cells into a per-column statistics state: the total grows by
the number of cells, the numeric list is extended by exactly the parsed
numeric values in order, and the string counter's total grows by the
number of non-blank non-numeric cells. -/
theorem foldl_updateCell_spec :
    ∀ (cells : List RawCell) (s : ColStats),
      (cells.foldl updateCell s).total_count = s.total_count + cells.length ∧
      (cells.foldl updateCell s).numeric_values =
        s.numeric_values ++ cells.filterMap cellNum ∧
      freqTotal (cells.foldl updateCell s).string_values =
        freqTotal s.string_values + cells.countP isStrCell := by
  intro cells
  induction cells with
  | nil => intro s; simp
  | cons c cs ih =>
    intro s
    obtain ⟨h1, h2, h3⟩ := ih (updateCell s c)
    rw [List.foldl_cons]
    refine ⟨?_, ?_, ?_⟩
    · rw [h1]
      cases c <;> simp [updateCell] <;> omega
    · rw [h2]
      cases c <;> simp [updateCell, cellNum, List.filterMap_cons]
    · rw [h3]
      cases c
      all_goals simp [updateCell, isStrCell, List.countP_cons, freqTotal_addEntry]
      all_goals omega

/-- Parsed numeric values are exactly as many as the numeric cells. -/
theorem length_filterMap_cellNum (cells : List RawCell) :
    (cells.filterMap cellNum).length = cells.countP isNumCell := by
  induction cells with
  | nil => rfl
  | cons c cs ih =>
    cases c <;> simp [List.filterMap_cons, cellNum, isNumCell, List.countP_cons, ih]

/-- Every cell is numeric, a non-blank string, or blank — exactly one of
the three. -/
theorem countP_cell_partition (cells : List RawCell) :
    cells.countP isBlankCell + cells.countP isNumCell + cells.countP isStrCell =
      cells.length := by
  induction cells with
  | nil => rfl
  | cons c cs ih =>
    rw [List.countP_cons, List.countP_cons, List.countP_cons, List.length_cons, ← ih]
    cases c
    all_goals simp [isBlankCell, isNumCell, isStrCell]
    all_goals omega

/-- Non-blank cells are the numeric ones plus the string ones. -/
theorem countP_not_blank (cells : List RawCell) :
    cells.countP (fun c => !(isBlankCell c)) =
      cells.countP isNumCell + cells.countP isStrCell := by
  induction cells with
  | nil => rfl
  | cons c cs ih =>
    rw [List.countP_cons, List.countP_cons, List.countP_cons, ih]
    cases c
    all_goals simp [isBlankCell, isNumCell, isStrCell]
    all_goals omega

/-- A column sees one cell per row when every row is long enough. -/
theorem length_filterMap_getElem (rows : List (List RawCell)) (j : ℕ)
    (h : ∀ r ∈ rows, j < r.length) :
    (rows.filterMap fun r => r[j]?).length = rows.length := by
  induction rows with
  | nil => rfl
  | cons r rows ih =>
    have hr : j < r.length := h r (List.mem_cons_self r rows)
    rw [List.filterMap_cons, List.getElem?_eq_getElem hr]
    simp only [List.length_cons]
    rw [ih fun r2 hr2 => h r2 (List.mem_cons_of_mem r hr2)]

/-- Claim C3 counterexample: in the column whose cells are the
unparseable `"x"` followed by `"5"`, the later numeric value is still
appended to the numeric statistics (`numeric_values = [5]`), and the
column is classified numeric even though not every non-empty value
parses: routing is per cell, nothing is reclassified for the rest of the
pass. -/
theorem unparseable_then_numeric_still_counted :
    ([RawCell.strv "x", RawCell.num 5].foldl updateCell initColStats).numeric_values
        = [(5 : ℚ)] ∧
      classifyNumeric
        ([RawCell.strv "x", RawCell.num 5].foldl updateCell initColStats) = true := by
  constructor
  · show ([] : List ℚ) ++ [(5 : ℚ)] = [(5 : ℚ)]
    rw [List.nil_append]
  · rfl

/-- Claim C3 (amended): classification is per cell, not per column: every
value that parses as a number is appended to the numeric statistics
regardless of its position relative to unparseable values, and the column
is finally classified numeric iff at least one of its values parses as a
number (`example_analysis.py` lines 162-203, `quick_demo.py` lines
194-236). -/
theorem per_cell_routing (cells : List RawCell) :
    (cells.foldl updateCell initColStats).numeric_values = cells.filterMap cellNum ∧
    (classifyNumeric (cells.foldl updateCell initColStats) = true ↔
      ∃ c ∈ cells, isNumCell c = true) ∧
    (cells.foldl updateCell initColStats).total_count = cells.length := by
  obtain ⟨h1, h2, _⟩ := foldl_updateCell_spec cells initColStats
  have hnv : (cells.foldl updateCell initColStats).numeric_values =
      cells.filterMap cellNum := by
    rw [h2]
    rfl
  refine ⟨hnv, ?_, by rw [h1]; simp [initColStats]⟩
  rw [classifyNumeric, hnv]
  constructor
  · intro h
    by_contra hc
    push_neg at hc
    have hnil : cells.filterMap cellNum = [] := by
      rw [List.filterMap_eq_nil_iff]
      intro c hcmem
      cases hcell : c with
      | num q =>
        have hior := hc c hcmem
        rw [hcell] at hior
        exact absurd rfl hior
      | strv v => rfl
      | blank => rfl
    rw [hnil] at h
    simp at h
  · rintro ⟨c, hcmem, hcnum⟩
    cases c with
    | num q =>
      have hq : q ∈ cells.filterMap cellNum :=
        List.mem_filterMap.mpr ⟨RawCell.num q, hcmem, rfl⟩
      have hne : cells.filterMap cellNum ≠ [] := List.ne_nil_of_mem hq
      cases hl : cells.filterMap cellNum with
      | nil => exact absurd hl hne
      | cons a t => rfl
    | strv v => simp [isNumCell] at hcnum
    | blank => simp [isNumCell] at hcnum

/-- Claim C6 counterexample: with header columns `A, B` and the single
malformed one-field row `["x"]` (field count 1 ≠ 2), the cell `"x"` IS
folded into column `A`'s accumulator (its counter holds `x ↦ 1` and its
per-column total is 1): the row is not skipped, and no malformed-row
counter exists anywhere in the result. -/
theorem malformed_row_cells_still_folded :
    (calculate_basic_statistics ["A", "B"] [[RawCell.strv "x"]])[0]? =
      some { numeric_values := [], string_values := [("x", 1)], total_count := 1 } ∧
    (analyze_null_values ["A", "B"] [[RawCell.strv "x"]]).2 = 1 := by
  constructor
  · rfl
  · rfl

/-- Claim C6 (amended): a row whose field count differs from the header
still contributes 1 to the total row count, but it is not skipped: each of
its cells at an index below both the row length and the header length is
folded into that column's accumulator (the `j`-th column folds exactly the
cells `r[j]` of the rows having one), cells beyond the header's column
count are ignored, and the code maintains no malformed-row counter. -/
theorem malformed_row_partial_fold (cols : List String)
    (rows : List (List RawCell)) (j : ℕ) (hj : j < cols.length) :
    (calculate_basic_statistics cols rows)[j]? =
      some ((rows.filterMap fun r => r[j]?).foldl updateCell initColStats) ∧
    (∀ j2, cols.length ≤ j2 → (calculate_basic_statistics cols rows)[j2]? = none) ∧
    (analyze_null_values cols rows).2 = rows.length ∧
    (analyze_null_values cols rows).1[j]? =
      some ((rows.filterMap fun r => r[j]?).countP isBlankCell) :=
  ⟨calc_stats_getElem cols rows j hj,
    fun j2 hj2 => calc_stats_getElem_none cols rows j2 hj2,
    rfl,
    nulls_getElem cols rows j hj⟩

/-- Witness for C6: the amended statement evaluated on the concrete
malformed-row input of the counterexample scenario. -/
theorem malformed_row_partial_fold_witness :
    0 < (["A", "B"] : List String).length ∧
      ((calculate_basic_statistics ["A", "B"] [[RawCell.strv "x", RawCell.num 1,
          RawCell.blank]])[0]? =
        some (([[RawCell.strv "x", RawCell.num 1, RawCell.blank]].filterMap
          fun r => r[0]?).foldl updateCell initColStats) ∧
      (∀ j2, (["A", "B"] : List String).length ≤ j2 →
        (calculate_basic_statistics ["A", "B"] [[RawCell.strv "x", RawCell.num 1,
          RawCell.blank]])[j2]? = none) ∧
      (analyze_null_values ["A", "B"] [[RawCell.strv "x", RawCell.num 1,
        RawCell.blank]]).2 = 1 ∧
      (analyze_null_values ["A", "B"] [[RawCell.strv "x", RawCell.num 1,
        RawCell.blank]]).1[0]? =
        some (([[RawCell.strv "x", RawCell.num 1, RawCell.blank]].filterMap
          fun r => r[0]?).countP isBlankCell)) :=
  ⟨by decide,
    malformed_row_partial_fold ["A", "B"]
      [[RawCell.strv "x", RawCell.num 1, RawCell.blank]] 0 (by decide)⟩

/-- Claim C7: a cell is counted missing exactly when it is blank after
stripping, and the accounting identity holds on rectangular input (every
row as long as the header): per column, the null count plus the non-null
observations equals the number of rows, and equivalently the null count
plus the numeric count plus the categorical total equals the total row
count; the per-column total equals the row count as well. -/
theorem null_accounting (cols : List String) (rows : List (List RawCell))
    (j : ℕ) (hj : j < cols.length)
    (hrect : ∀ r ∈ rows, r.length = cols.length) :
    (analyze_null_values cols rows).1[j]? =
      some ((rows.filterMap fun r => r[j]?).countP isBlankCell) ∧
    ((rows.filterMap fun r => r[j]?).countP isBlankCell +
      (rows.filterMap fun r => r[j]?).countP (fun c => !(isBlankCell c)) =
        rows.length) ∧
    ((calculate_basic_statistics cols rows)[j]? =
      some ((rows.filterMap fun r => r[j]?).foldl updateCell initColStats)) ∧
    ((rows.filterMap fun r => r[j]?).countP isBlankCell +
      ((rows.filterMap fun r => r[j]?).foldl updateCell
        initColStats).numeric_values.length +
      freqTotal ((rows.filterMap fun r => r[j]?).foldl updateCell
        initColStats).string_values = rows.length) ∧
    ((rows.filterMap fun r => r[j]?).foldl updateCell initColStats).total_count =
      rows.length := by
  have hlen : (rows.filterMap fun r => r[j]?).length = rows.length :=
    length_filterMap_getElem rows j fun r hr => by rw [hrect r hr]; exact hj
  obtain ⟨h1, h2, h3⟩ :=
    foldl_updateCell_spec (rows.filterMap fun r => r[j]?) initColStats
  refine ⟨nulls_getElem cols rows j hj, ?_, calc_stats_getElem cols rows j hj, ?_, ?_⟩
  · rw [countP_not_blank, ← hlen, ← countP_cell_partition]
    omega
  · rw [h2, h3]
    have h4 : (initColStats.numeric_values ++
        (rows.filterMap fun r => r[j]?).filterMap cellNum).length =
        ((rows.filterMap fun r => r[j]?).filterMap cellNum).length := by
      simp [initColStats]
    rw [h4, length_filterMap_cellNum, ← hlen, ← countP_cell_partition]
    have h5 : freqTotal initColStats.string_values = 0 := rfl
    rw [h5]
    omega
  · rw [h1, ← hlen]
    simp [initColStats]

/-- Witness for C7: the accounting identity evaluated on a concrete
rectangular two-row file. -/
theorem null_accounting_witness :
    0 < (["A"] : List String).length ∧
      (∀ r ∈ [[RawCell.blank], [RawCell.num 1]], r.length = (["A"] : List String).length) ∧
      (analyze_null_values ["A"] [[RawCell.blank], [RawCell.num 1]]).1[0]? =
        some (([[RawCell.blank], [RawCell.num 1]].filterMap
          fun r => r[0]?).countP isBlankCell) :=
  ⟨by decide, by decide,
    (null_accounting ["A"] [[RawCell.blank], [RawCell.num 1]] 0 (by decide)
      (by decide)).1⟩

/-! ## Format-detection lemmas -/

/-- Claim C5 counterexample: on the first line `"a,b;c,d,e"` the comma
split yields 4 fields (`a`, `b;c`, `d`, `e`), not the 3 the claim states;
the semicolon split yields 2, and the detector still selects the comma,
reporting 4 columns. -/
theorem comma_yields_four_fields :
    (splitOnChar (Char.ofNat 44) "a,b;c,d,e".data).length = 4 ∧
    ¬ (splitOnChar (Char.ofNat 44) "a,b;c,d,e".data).length = 3 ∧
    (splitOnChar (Char.ofNat 59) "a,b;c,d,e".data).length = 2 ∧
    detectSep "a,b;c,d,e".data = (Char.ofNat 44, 4) := by
  refine ⟨by decide, by decide, by decide, by decide⟩

/-- Claim C5 (amended): the detector returns the candidate yielding the
maximum field count over the priority-ordered candidates
`[',', ';', '\t', '|']`, ties broken in favour of the earlier candidate —
the returned count is the maximum of the four field counts, it is the
field count of the returned separator, and every strictly earlier
candidate yields strictly fewer fields; on `"a,b;c,d,e"` the comma yields
4 fields (not 3) and the semicolon 2, so the comma is selected.  The
hypothesis that a comma split is nonempty holds for every line, the split
of a line always having at least one field. -/
theorem detectSep_max_priority (line : List Char)
    (h : 0 < (splitOnChar (Char.ofNat 44) line).length) :
    (detectSep line).2 =
      max (max (max (splitOnChar (Char.ofNat 44) line).length
            (splitOnChar (Char.ofNat 59) line).length)
          (splitOnChar (Char.ofNat 9) line).length)
        (splitOnChar (Char.ofNat 124) line).length ∧
    (splitOnChar (detectSep line).1 line).length = (detectSep line).2 ∧
    ((detectSep line).1 = Char.ofNat 44 ∧
        (splitOnChar (Char.ofNat 59) line).length ≤
          (splitOnChar (Char.ofNat 44) line).length ∧
        (splitOnChar (Char.ofNat 9) line).length ≤
          (splitOnChar (Char.ofNat 44) line).length ∧
        (splitOnChar (Char.ofNat 124) line).length ≤
          (splitOnChar (Char.ofNat 44) line).length ∨
      (detectSep line).1 = Char.ofNat 59 ∧
        (splitOnChar (Char.ofNat 44) line).length <
          (splitOnChar (Char.ofNat 59) line).length ∧
        (splitOnChar (Char.ofNat 9) line).length ≤
          (splitOnChar (Char.ofNat 59) line).length ∧
        (splitOnChar (Char.ofNat 124) line).length ≤
          (splitOnChar (Char.ofNat 59) line).length ∨
      (detectSep line).1 = Char.ofNat 9 ∧
        (splitOnChar (Char.ofNat 44) line).length <
          (splitOnChar (Char.ofNat 9) line).length ∧
        (splitOnChar (Char.ofNat 59) line).length <
          (splitOnChar (Char.ofNat 9) line).length ∧
        (splitOnChar (Char.ofNat 124) line).length ≤
          (splitOnChar (Char.ofNat 9) line).length ∨
      (detectSep line).1 = Char.ofNat 124 ∧
        (splitOnChar (Char.ofNat 44) line).length <
          (splitOnChar (Char.ofNat 124) line).length ∧
        (splitOnChar (Char.ofNat 59) line).length <
          (splitOnChar (Char.ofNat 124) line).length ∧
        (splitOnChar (Char.ofNat 9) line).length <
          (splitOnChar (Char.ofNat 124) line).length) := by
  unfold detectSep sepCandidates
  simp only [List.foldl_cons, List.foldl_nil]
  split_ifs with h1 h2 h3 h4
  all_goals dsimp only at *
  all_goals refine ⟨by omega, by omega, ?_⟩
  all_goals
    first
    | exact Or.inl ⟨rfl, by omega, by omega, by omega⟩
    | exact Or.inr (Or.inl ⟨rfl, by omega, by omega, by omega⟩)
    | exact Or.inr (Or.inr (Or.inl ⟨rfl, by omega, by omega, by omega⟩))
    | exact Or.inr (Or.inr (Or.inr ⟨rfl, by omega, by omega, by omega⟩))

/-- Witness for C5: the characterization evaluated on the line `"a,b"`. -/
theorem detectSep_max_priority_witness :
    0 < (splitOnChar (Char.ofNat 44) "a,b".data).length ∧
      (splitOnChar (detectSep "a,b".data).1 "a,b".data).length =
        (detectSep "a,b".data).2 :=
  ⟨by decide, (detectSep_max_priority "a,b".data (by decide)).2.1⟩

/-- Claim C10: when no candidate separator occurs in the first line —
every candidate split yields exactly one field — the detector returns the
default `','` with a reported column count of 1; and on every line
whatsoever, the returned separator is a member of the candidate list. -/
theorem detectSep_default_comma :
    (∀ line : List Char,
      (∀ s ∈ sepCandidates, (splitOnChar s line).length = 1) →
        detectSep line = (Char.ofNat 44, 1)) ∧
    ∀ line : List Char, (detectSep line).1 ∈ sepCandidates := by
  constructor
  · intro line hall
    have hc := hall (Char.ofNat 44) (by simp [sepCandidates])
    have hs := hall (Char.ofNat 59) (by simp [sepCandidates])
    have ht := hall (Char.ofNat 9) (by simp [sepCandidates])
    have hp := hall (Char.ofNat 124) (by simp [sepCandidates])
    unfold detectSep sepCandidates
    simp only [List.foldl_cons, List.foldl_nil]
    rw [hc, hs, ht, hp]
    norm_num
  · intro line
    unfold detectSep sepCandidates
    simp only [List.foldl_cons, List.foldl_nil]
    split_ifs
    all_goals simp [sepCandidates]

/-- Witness for C10: the single-field case evaluated on the separator-free
first line `"header"`. -/
theorem detectSep_default_comma_witness :
    (∀ s ∈ sepCandidates, (splitOnChar s "header".data).length = 1) ∧
      detectSep "header".data = (Char.ofNat 44, 1) :=
  ⟨by decide, detectSep_default_comma.1 "header".data (by decide)⟩

/-- Claim C9 counterexample: for an empty file the detection does not
signal any error and does not abort — there is no `FormatDetectionError`
anywhere in the code.  The stripped first line of an empty file is empty
and every candidate encoding decodes the empty byte sample, and detection
returns a complete profile: the fallback encoding `'utf-8'`, the default
separator `','`, and a column count of 1; the run then proceeds to the
passes. -/
theorem empty_file_detection_returns_profile :
    detect_encoding_and_separator (fun _ => true) [] =
      { encoding := "utf-8", separator := Char.ofNat 44, columns := 1 } := by
  decide

/-- Claim C9 (amended): on an empty (stripped) first line, whatever the
per-encoding decode outcomes, `detect_encoding_and_separator` raises
nothing and returns the profile `{encoding := "utf-8", separator := ',',
columns := 1}`: the encoding loop never fires for an empty line, so the
initial `'utf-8'` remains, and the separator detector reports the default
comma with one column.  No file profile is withheld and no pass is
prevented from running. -/
theorem empty_first_line_detection (decodeOk : String → Bool)
    (firstLine : List Char) (h : firstLine = []) :
    detect_encoding_and_separator decodeOk firstLine =
      { encoding := "utf-8", separator := Char.ofNat 44, columns := 1 } := by
  subst h
  have henc : detectEncoding decodeOk [] = "utf-8" := by
    rw [detectEncoding]
    have hfind : encodingCandidates.find?
        (fun e => decodeOk e && !(List.isEmpty ([] : List Char))) = none := by
      rw [List.find?_eq_none]
      intro x _
      simp
    rw [hfind]
  have hsep : detectSep ([] : List Char) = (Char.ofNat 44, 1) := by decide
  show DetectResult.mk (detectEncoding decodeOk []) (detectSep []).1 (detectSep []).2 =
    DetectResult.mk "utf-8" (Char.ofNat 44) 1
  rw [henc, hsep]

/-- Witness for C9: the amended statement evaluated with every decode
failing. -/
theorem empty_first_line_detection_witness :
    (([] : List Char) = []) ∧
      detect_encoding_and_separator (fun _ => false) [] =
        { encoding := "utf-8", separator := Char.ofNat 44, columns := 1 } :=
  ⟨rfl, empty_first_line_detection (fun _ => false) [] rfl⟩
